import Mathlib

/-!
Verification of the cloudway platform's container-lifecycle core against its
natural-language specification.  Each component used by the checked claims is
shallowly embedded: bytes are `Nat` values below 256, byte streams are
`List Nat`, machine integers are `Int`/`Nat` with explicit `% 2^32` where Java
or Go truncation matters, fallible operations return `Option`/`Except`, and the
broker's side effects are made explicit as state transformers with an event
trace.
-/

namespace StdCopy

/-- Stream-type tags of the multiplexer (`StdType` in the Go source):
`Stdin = 0`, `Stdout = 1`, `Stderr = 2`, `Data = 3`. -/
def StdinTag : Nat := 0

def StdoutTag : Nat := 1

def StderrTag : Nat := 2

def DataTag : Nat := 3

/-- Header length of one frame (`stdWriterPrefixLen` in the source). -/
def stdWriterPrefixLen : Nat := 8

/-- Initial decode buffer length (`startingBufLen = 32*1024 + 8 + 1`). -/
def startingBufLen : Nat := 32 * 1024 + stdWriterPrefixLen + 1

/-- `binary.BigEndian.PutUint32` applied to `uint32(n)`: the four big-endian
bytes of `n` truncated to 32 bits. -/
def putUint32 (n : Nat) : List Nat :=
  [n % 2 ^ 32 / 2 ^ 24 % 256,
   n % 2 ^ 32 / 2 ^ 16 % 256,
   n % 2 ^ 32 / 2 ^ 8 % 256,
   n % 2 ^ 32 % 256]

/-- `binary.BigEndian.Uint32` over four bytes. -/
def getUint32 (l0 l1 l2 l3 : Nat) : Nat :=
  l0 * 2 ^ 24 + l1 * 2 ^ 16 + l2 * 2 ^ 8 + l3

/-- `stdWriter.Write` of the Go source, for an instantiated writer over a pure
sink that accepts every byte.  The Go distinction between a `nil` slice and an
empty slice is kept by taking an `Option (List Nat)`.  Returns the bytes pushed
to the underlying sink and the reported byte count `n`; the write itself never
fails against a pure sink (`err = nil` on every path modelled). -/
def stdWrite (pfx : Nat) (p : Option (List Nat)) : List Nat × Nat :=
  match p with
  | none => ([], 0)
  | some q =>
      let frame := pfx :: 0 :: 0 :: 0 :: putUint32 q.length ++ q
      (frame, frame.length - stdWriterPrefixLen)

/-- One decoded state of `Copy`: the three sinks, the `written` counter and the
final `error` result (`none` = the Go `nil` error). -/
structure CopyOut where
  dstout : List Nat
  dsterr : List Nat
  ddata : List Nat
  written : Nat
  error : Option String
  deriving Repr, DecidableEq

/-- The decode loop of `stdcopy.Copy` over a pure byte-list source.  A pure
source delivers every remaining byte on demand, so "read until 8 header bytes
or EOF" becomes a length test on the remaining input.  Mirrors the source's
order of checks: header availability, then the tag switch (an unrecognized tag
aborts with `written = 0` and an error), then the frame-completeness test
(truncation returns the bytes written so far and a `nil` error), then dispatch
to the sink selected by the tag (`Stdin` and `Stdout` to `dstout`). -/
def copyLoop (dstout dsterr ddata : List Nat) (written : Nat) :
    List Nat → CopyOut
  | t :: _r1 :: _r2 :: _r3 :: l0 :: l1 :: l2 :: l3 :: rest =>
      if t ≤ 3 then
        let frameSize := getUint32 l0 l1 l2 l3
        if rest.length < frameSize then
          ⟨dstout, dsterr, ddata, written, none⟩
        else
          let payload := rest.take frameSize
          let next := rest.drop frameSize
          if t ≤ 1 then
            copyLoop (dstout ++ payload) dsterr ddata (written + frameSize) next
          else if t = 2 then
            copyLoop dstout (dsterr ++ payload) ddata (written + frameSize) next
          else
            copyLoop dstout dsterr (ddata ++ payload) (written + frameSize) next
      else ⟨dstout, dsterr, ddata, 0, some "Unrecognized input header"⟩
  | _ => ⟨dstout, dsterr, ddata, written, none⟩
  termination_by input => input.length
  decreasing_by
    all_goals
      simp only [List.length_cons, List.length_drop]
      omega

/-- `stdcopy.Copy(dstout, dsterr, data, src)` over a pure byte-list source. -/
def Copy (src : List Nat) : CopyOut :=
  copyLoop [] [] [] 0 src

/-- A trailing byte sequence on which the decoder stops cleanly: either fewer
than 8 header bytes remain, or a full header with a recognized tag declares
more payload bytes than remain. -/
def truncatedTail : List Nat → Bool
  | t :: _r1 :: _r2 :: _r3 :: l0 :: l1 :: l2 :: l3 :: rest =>
      t ≤ 3 && rest.length < getUint32 l0 l1 l2 l3
  | _ => true

/-- One frame as laid on the wire by `stdWriter.Write`. -/
def encodeFrame (f : Nat × List Nat) : List Nat := (stdWrite f.1 (some f.2)).1

/-- A sequence of frames laid on the wire back to back. -/
def encodeStream (fs : List (Nat × List Nat)) : List Nat := (fs.map encodeFrame).flatten

/-- Payload bytes a frame list should deliver to the stdout sink
(tags `Stdin = 0` and `Stdout = 1`), in frame order. -/
def expOut (fs : List (Nat × List Nat)) : List Nat :=
  ((fs.filter (fun f => f.1 ≤ 1)).map Prod.snd).flatten

/-- Payload bytes a frame list should deliver to the stderr sink (tag 2). -/
def expErr (fs : List (Nat × List Nat)) : List Nat :=
  ((fs.filter (fun f => f.1 = 2)).map Prod.snd).flatten

/-- Payload bytes a frame list should deliver to the data sink (tag 3). -/
def expDat (fs : List (Nat × List Nat)) : List Nat :=
  ((fs.filter (fun f => f.1 = 3)).map Prod.snd).flatten

/-- Total payload length of a frame list. -/
def totalLen (fs : List (Nat × List Nat)) : Nat := (fs.map (fun f => f.2.length)).sum

theorem copyLoop_nil (o e d : List Nat) (w : Nat) :
    copyLoop o e d w [] = ⟨o, e, d, w, none⟩ := by
  simp [copyLoop]

theorem getUint32_putUint32 (n : Nat) (h : n < 2 ^ 32) :
    getUint32 (n / 2 ^ 24 % 256) (n / 2 ^ 16 % 256) (n / 2 ^ 8 % 256) (n % 256) = n := by
  unfold getUint32
  omega

/-- The decode loop consumes one well-formed frame at the head of its input,
appends its payload to the sink selected by the tag, and continues. -/
theorem copyLoop_frame (o e d : List Nat) (w t : Nat) (p more : List Nat)
    (ht : t ≤ 3) (hp : p.length < 2 ^ 32) :
    copyLoop o e d w ((stdWrite t (some p)).1 ++ more) =
      copyLoop (if t ≤ 1 then o ++ p else o) (if t = 2 then e ++ p else e)
        (if t = 3 then d ++ p else d) (w + p.length) more := by
  have hmod : p.length % 2 ^ 32 = p.length := Nat.mod_eq_of_lt hp
  simp only [stdWrite, putUint32, hmod, List.cons_append, List.append_assoc]
  rw [copyLoop, if_pos ht]
  have hlen : ¬ ([] ++ (p ++ more)).length < p.length := by simp [List.length_append]
  simp only [getUint32_putUint32 p.length hp, hlen, if_false, List.nil_append,
    List.take_left, List.drop_left]
  interval_cases t <;> simp

/-- The decode loop stops cleanly, keeping its accumulated sinks and byte
count, on a truncated tail. -/
theorem copyLoop_truncated (o e d : List Nat) (w : Nat) (tail : List Nat)
    (h : truncatedTail tail = true) :
    copyLoop o e d w tail = ⟨o, e, d, w, none⟩ := by
  rcases tail with _ | ⟨t, _ | ⟨r1, _ | ⟨r2, _ | ⟨r3, _ | ⟨l0, _ | ⟨l1, _ | ⟨l2, _ | ⟨l3, rest⟩⟩⟩⟩⟩⟩⟩⟩ <;>
    simp_all [copyLoop, truncatedTail]

/-- The decode loop dispatches every complete frame of a multiplexed stream in
order and stops cleanly at a truncated tail. -/
theorem copyLoop_stream (fs : List (Nat × List Nat)) (tail : List Nat)
    (o e d : List Nat) (w : Nat)
    (hfs : ∀ f ∈ fs, f.1 ≤ 3 ∧ f.2.length < 2 ^ 32)
    (ht : truncatedTail tail = true) :
    copyLoop o e d w (encodeStream fs ++ tail) =
      ⟨o ++ expOut fs, e ++ expErr fs, d ++ expDat fs, w + totalLen fs, none⟩ := by
  induction fs generalizing o e d w with
  | nil =>
      simp [encodeStream, expOut, expErr, expDat, totalLen, copyLoop_truncated o e d w tail ht]
  | cons f fs ih =>
      obtain ⟨hf3, hflen⟩ := hfs f (List.mem_cons_self f fs)
      have hfs' : ∀ g ∈ fs, g.1 ≤ 3 ∧ g.2.length < 2 ^ 32 :=
        fun g hg => hfs g (List.mem_cons_of_mem f hg)
      have hsplit : encodeStream (f :: fs) ++ tail = encodeFrame f ++ (encodeStream fs ++ tail) := by
        simp [encodeStream, List.append_assoc]
      rw [hsplit, encodeFrame, copyLoop_frame o e d w f.1 f.2 (encodeStream fs ++ tail) hf3 hflen,
        ih _ _ _ _ hfs']
      rcases f with ⟨t, p⟩
      simp only [expOut, expErr, expDat, totalLen, List.filter_cons, List.map_cons, List.sum_cons,
        CopyOut.mk.injEq]
      refine ⟨?_, ?_, ?_, ?_, trivial⟩
      · by_cases h1 : t ≤ 1 <;> simp [h1, List.append_assoc]
      · by_cases h2 : t = 2 <;> simp [h2, List.append_assoc]
      · by_cases h3 : t = 3 <;> simp [h3, List.append_assoc]
      · omega

end StdCopy

namespace BrokerM

/-- A user record as the broker sees it (`userdb.BasicUser`): account name and
optional SCM namespace. -/
structure User where
  name : String
  ns : String
  deriving Repr, DecidableEq

/-- A container known to the broker's finder: engine id and the namespace it
belongs to. -/
structure Container where
  id : String
  ns : String
  deriving Repr, DecidableEq

/-- A Go error value: a plain error message or the aggregate built by the
`errors.Errors` collector. -/
inductive GoErr where
  | msg : String → GoErr
  | aggregate : List GoErr → GoErr
  deriving Repr

/-- Modelled from the spec: `errors.Errors.Add` of `pkg/errors` (the package
itself is not among the sources, only its use in `Broker.RemoveUser`): a nil
error is ignored, a non-nil error is collected. -/
def errorsAdd (es : List GoErr) (e : Option GoErr) : List GoErr :=
  match e with
  | none => es
  | some e => es ++ [e]

/-- Modelled from the spec: `errors.Errors.Err()` — nil when nothing was
collected, the aggregate of all collected failures otherwise. -/
def errorsErr (es : List GoErr) : Option GoErr :=
  match es with
  | [] => none
  | _ => some (.aggregate es)

/-- The broker-visible state: the user database records and the live
containers of the engine. -/
structure State where
  users : List User
  containers : List Container
  deriving Repr, DecidableEq

/-- Outcomes of the broker's external collaborators for one request (`none`
means the call succeeds): the user database create/remove, the SCM
namespace create/remove, the engine finder, and per-container destroy. -/
structure Env where
  userCreateErr : Option GoErr
  scmCreateErr : Option GoErr
  findErr : Option GoErr
  destroyErr : String → Option GoErr
  scmRemoveErr : Option GoErr
  userRemoveErr : Option GoErr

/-- Calls the broker issues to its collaborators, in order. -/
inductive Ev where
  | userCreate (name : String)
  | userRemove (name : String)
  | scmCreateNs (ns : String)
  | scmRemoveNs (ns : String)
  | hubRemoveNs (ns : String)
  | findInNamespace (ns : String)
  | destroy (id : String)
  deriving Repr, DecidableEq

/-- `Users.Find` over the modelled user database. -/
def findUser (st : State) (name : String) : Option User :=
  st.users.find? (fun v => v.name == name)

/-- `Broker.CreateUser` of the Go source: create the record in the user
database; if the namespace is non-empty, create the SCM namespace, and on
SCM failure remove the just-written record before propagating the error.
Returns the new state, the calls issued in order, and the error result. -/
def CreateUser (env : Env) (st : State) (u : User) : State × List Ev × Option GoErr :=
  match env.userCreateErr with
  | some e => (st, [.userCreate u.name], some e)
  | none =>
      let st1 := { st with users := st.users ++ [u] }
      if u.ns = "" then (st1, [.userCreate u.name], none)
      else
        match env.scmCreateErr with
        | some e =>
            ({ st1 with users := st1.users.filter (fun v => v.name != u.name) },
             [.userCreate u.name, .scmCreateNs u.ns, .userRemove u.name], some e)
        | none => (st1, [.userCreate u.name, .scmCreateNs u.ns], none)

/-- The container loop of `Broker.RemoveUser`: destroy every container found,
collecting (not short-circuiting on) per-container failures. -/
def destroyAll (env : Env) (cs : List Container) (st : State) (es : List GoErr)
    (tr : List Ev) : State × List GoErr × List Ev :=
  match cs with
  | [] => (st, es, tr)
  | c :: rest =>
      let st' : State :=
        match env.destroyErr c.id with
        | none => { st with containers := st.containers.filter (fun d => d.id != c.id) }
        | some _ => st
      destroyAll env rest st' (errorsAdd es (env.destroyErr c.id)) (tr ++ [.destroy c.id])

/-- `Broker.RemoveUser` of the Go source: find the user; when the namespace is
non-empty, destroy every container in it (collecting failures), remove the SCM
namespace (collecting a failure), remove the namespace from the plugin hub
(its result is not collected); finally remove the user record; return the
collected aggregate. -/
def RemoveUser (env : Env) (st : State) (username : String) :
    State × List Ev × Option GoErr :=
  match findUser st username with
  | none => (st, [], some (.msg "user not found"))
  | some u =>
      let step1 : State × List GoErr × List Ev :=
        if u.ns = "" then (st, [], [])
        else
          let found : State × List GoErr × List Ev :=
            match env.findErr with
            | some e => (st, [e], [Ev.findInNamespace u.ns])
            | none =>
                destroyAll env (st.containers.filter (fun c => c.ns == u.ns)) st []
                  [Ev.findInNamespace u.ns]
          (found.1, errorsAdd found.2.1 env.scmRemoveErr,
           found.2.2 ++ [Ev.scmRemoveNs u.ns, Ev.hubRemoveNs u.ns])
      match env.userRemoveErr with
      | none =>
          ({ step1.1 with users := step1.1.users.filter (fun v => v.name != u.name) },
           step1.2.2 ++ [Ev.userRemove u.name], errorsErr step1.2.1)
      | some e =>
          (step1.1, step1.2.2 ++ [Ev.userRemove u.name], errorsErr (step1.2.1 ++ [e]))

theorem destroyAll_users (env : Env) (cs : List Container) (st : State)
    (es : List GoErr) (tr : List Ev) :
    (destroyAll env cs st es tr).1.users = st.users := by
  induction cs generalizing st es tr with
  | nil => rfl
  | cons c rest ih =>
      rw [destroyAll]
      cases h : env.destroyErr c.id <;> simp [h, ih]

theorem destroyAll_errors (env : Env) (cs : List Container) (st : State)
    (es : List GoErr) (tr : List Ev) :
    (destroyAll env cs st es tr).2.1 = es ++ cs.filterMap (fun c => env.destroyErr c.id) := by
  induction cs generalizing st es tr with
  | nil => simp [destroyAll]
  | cons c rest ih =>
      rw [destroyAll]
      cases h : env.destroyErr c.id <;> simp [h, ih, errorsAdd]

theorem destroyAll_trace (env : Env) (cs : List Container) (st : State)
    (es : List GoErr) (tr : List Ev) :
    (destroyAll env cs st es tr).2.2 = tr ++ cs.map (fun c => Ev.destroy c.id) := by
  induction cs generalizing st es tr with
  | nil => simp [destroyAll]
  | cons c rest ih =>
      rw [destroyAll]
      cases h : env.destroyErr c.id <;> simp [h, ih]

theorem errorsErr_ne_nil (es : List GoErr) (h : es ≠ []) :
    errorsErr es = some (.aggregate es) := by
  cases es with
  | nil => exact absurd rfl h
  | cons a l => rfl

end BrokerM

/-- C3: For every stream type tag `t ∈ {0,1,2,3}` and non-nil payload `p`
(any length below `2^32`), the encoder emits exactly one frame — the 1-byte
tag, 3 reserved zero bytes, the 4-byte big-endian length of `p`, then `p` —
reports `p.length` bytes written, and decoding that frame with `Copy` delivers
exactly `p` to the sink selected by the tag: `Stdin` (0) and `Stdout` (1) to
the stdout sink, `Stderr` (2) to the stderr sink, `Data` (3) to the data
sink. -/
theorem StdCopy.encode_decode_roundtrip (t : Nat) (p : List Nat)
    (ht : t ≤ 3) (hp : p.length < 2 ^ 32) :
    (stdWrite t (some p)).1 =
        t :: 0 :: 0 :: 0 ::
          [p.length / 2 ^ 24 % 256, p.length / 2 ^ 16 % 256, p.length / 2 ^ 8 % 256,
           p.length % 256] ++ p ∧
    (stdWrite t (some p)).2 = p.length ∧
    Copy (stdWrite t (some p)).1 =
      ⟨if t ≤ 1 then p else [], if t = 2 then p else [], if t = 3 then p else [],
       p.length, none⟩ := by
  refine ⟨by simp [stdWrite, putUint32]; omega,
    by simp [stdWrite, stdWriterPrefixLen, putUint32], ?_⟩
  unfold Copy
  rw [← List.append_nil (stdWrite t (some p)).1, copyLoop_frame [] [] [] 0 t p [] ht hp,
    copyLoop_nil]
  by_cases h1 : t ≤ 1 <;> by_cases h2 : t = 2 <;> by_cases h3 : t = 3 <;> simp_all

/-- Witness for C3 at tag `Stderr = 2` and payload `[5, 6]`. -/
theorem StdCopy.encode_decode_roundtrip_witness :
    (2 : Nat) ≤ 3 ∧ ([5, 6] : List Nat).length < 2 ^ 32 ∧
    ((stdWrite 2 (some [5, 6])).1 = 2 :: 0 :: 0 :: 0 :: [0, 0, 0, 2] ++ [5, 6] ∧
     (stdWrite 2 (some [5, 6])).2 = 2 ∧
     Copy (stdWrite 2 (some [5, 6])).1 = ⟨[], [5, 6], [], 2, none⟩) := by
  refine ⟨by decide, by decide, ?_⟩
  have h := StdCopy.encode_decode_roundtrip 2 [5, 6] (by decide) (by decide)
  simpa using h

/-- C4: decoding a stream of complete frames followed by a truncated tail —
end of input before 8 header bytes, or after a complete recognized header but
before the declared payload is fully available — stops cleanly: every complete
frame is dispatched to its sink in order, the returned byte count is the total
payload dispatched, and the error result is nil. -/
theorem StdCopy.copy_truncation_clean (fs : List (Nat × List Nat)) (tail : List Nat)
    (hfs : ∀ f ∈ fs, f.1 ≤ 3 ∧ f.2.length < 2 ^ 32)
    (ht : truncatedTail tail = true) :
    Copy (encodeStream fs ++ tail) =
      ⟨expOut fs, expErr fs, expDat fs, totalLen fs, none⟩ := by
  unfold Copy
  rw [copyLoop_stream fs tail [] [] [] 0 hfs ht]
  simp

/-- Witness for C4: three complete frames (tags 1, 2, 3) followed by a complete
header that declares 9 payload bytes of which only 2 arrive. -/
theorem StdCopy.copy_truncation_clean_witness :
    truncatedTail [0, 0, 0, 0, 0, 0, 0, 9, 1, 2] = true ∧
    Copy (encodeStream [(1, [10, 20]), (2, [30]), (3, [40])] ++
        [0, 0, 0, 0, 0, 0, 0, 9, 1, 2]) =
      ⟨[10, 20], [30], [40], 4, none⟩ := by
  refine ⟨by decide, ?_⟩
  have h := StdCopy.copy_truncation_clean [(1, [10, 20]), (2, [30]), (3, [40])]
    [0, 0, 0, 0, 0, 0, 0, 9, 1, 2] (by decide) (by decide)
  simpa [expOut, expErr, expDat, totalLen] using h

/-- C9: the encoder treats a nil payload as a successful no-op — it reports
0 bytes and writes nothing to the underlying sink, so no frame is emitted —
while a zero-length non-nil payload emits an 8-byte header-only frame. -/
theorem StdCopy.write_nil_noop (t : Nat) :
    stdWrite t none = ([], 0) ∧
    (stdWrite t (some [])).1 = [t, 0, 0, 0, 0, 0, 0, 0] ∧
    (stdWrite t (some [])).1.length = 8 ∧
    (stdWrite t (some [])).2 = 0 := by
  refine ⟨rfl, by simp [stdWrite, putUint32], by simp [stdWrite, putUint32],
    by simp [stdWrite, stdWriterPrefixLen, putUint32]⟩

/-- C1: `Broker.CreateUser` writes the user record first; with a non-empty
namespace it then creates the SCM namespace, and on SCM failure removes the
just-written record before propagating the SCM error, so no record with the
user's name remains; with an empty namespace no SCM call is issued and the
record persists. -/
theorem BrokerM.createUser_compensating (env : BrokerM.Env) (st : BrokerM.State)
    (u : BrokerM.User) (hcreate : env.userCreateErr = none) :
    (∀ e, u.ns ≠ "" → env.scmCreateErr = some e →
      BrokerM.CreateUser env st u =
        ({ st with users := (st.users ++ [u]).filter (fun v => v.name != u.name) },
         [.userCreate u.name, .scmCreateNs u.ns, .userRemove u.name], some e) ∧
      ∀ v ∈ (BrokerM.CreateUser env st u).1.users, v.name ≠ u.name) ∧
    (u.ns = "" →
      BrokerM.CreateUser env st u =
        ({ st with users := st.users ++ [u] }, [.userCreate u.name], none) ∧
      u ∈ (BrokerM.CreateUser env st u).1.users) ∧
    (u.ns ≠ "" → env.scmCreateErr = none →
      BrokerM.CreateUser env st u =
        ({ st with users := st.users ++ [u] },
         [.userCreate u.name, .scmCreateNs u.ns], none)) := by
  refine ⟨?_, ?_, ?_⟩
  · intro e hns hscm
    constructor
    · simp [BrokerM.CreateUser, hcreate, hscm, hns]
    · intro v hv
      have hv' : v ∈ (st.users ++ [u]).filter (fun w => w.name != u.name) := by
        simpa [BrokerM.CreateUser, hcreate, hscm, hns] using hv
      simpa using List.of_mem_filter hv'
  · intro hns
    constructor
    · simp [BrokerM.CreateUser, hcreate, hns]
    · simp [BrokerM.CreateUser, hcreate, hns]
  · intro hns hscm
    simp [BrokerM.CreateUser, hcreate, hscm, hns]

/-- Witness for C1: SCM namespace creation fails, the record written for
"alice" is rolled back, and the SCM error is propagated. -/
theorem BrokerM.createUser_compensating_witness :
    BrokerM.Env.userCreateErr
        ⟨none, some (.msg "scm down"), none, fun _ => none, none, none⟩ = none ∧
    BrokerM.CreateUser ⟨none, some (.msg "scm down"), none, fun _ => none, none, none⟩
        ⟨[⟨"bob", "b"⟩], []⟩ ⟨"alice", "ans"⟩ =
      (⟨[⟨"bob", "b"⟩], []⟩,
       [.userCreate "alice", .scmCreateNs "ans", .userRemove "alice"],
       some (.msg "scm down")) := by
  refine ⟨rfl, ?_⟩
  have h := (BrokerM.createUser_compensating
      ⟨none, some (.msg "scm down"), none, fun _ => none, none, none⟩
      ⟨[⟨"bob", "b"⟩], []⟩ ⟨"alice", "ans"⟩ rfl).1 (.msg "scm down") (by decide) rfl
  rw [h.1]
  rfl

/-- C2: for an existing user with a non-empty namespace, `Broker.RemoveUser`
attempts every cleanup step regardless of earlier failures — it destroys each
container found in the namespace (continuing past per-container failures),
removes the SCM namespace, removes the namespace from the plugin hub, and
removes the user record, in that order; the user record is removed even when
SCM removal fails and the returned aggregate then mentions the SCM failure;
when no step fails the result is nil. -/
theorem BrokerM.removeUser_best_effort (env : BrokerM.Env) (st : BrokerM.State)
    (username : String) (u : BrokerM.User)
    (hfind : BrokerM.findUser st username = some u) (hns : u.ns ≠ "")
    (hfe : env.findErr = none) (hur : env.userRemoveErr = none) :
    (BrokerM.RemoveUser env st username).2.1 =
       BrokerM.Ev.findInNamespace u.ns ::
         ((st.containers.filter (fun c => c.ns == u.ns)).map
            (fun c => BrokerM.Ev.destroy c.id) ++
          [.scmRemoveNs u.ns, .hubRemoveNs u.ns, .userRemove u.name]) ∧
    (∀ v ∈ (BrokerM.RemoveUser env st username).1.users, v.name ≠ u.name) ∧
    (∀ e, env.scmRemoveErr = some e →
      ∃ es, (BrokerM.RemoveUser env st username).2.2 = some (.aggregate es) ∧ e ∈ es) ∧
    ((∀ c ∈ st.containers.filter (fun c => c.ns == u.ns), env.destroyErr c.id = none) →
      env.scmRemoveErr = none → (BrokerM.RemoveUser env st username).2.2 = none) := by
  have hdu := BrokerM.destroyAll_users env (st.containers.filter (fun c => c.ns == u.ns)) st []
    [BrokerM.Ev.findInNamespace u.ns]
  have hde := BrokerM.destroyAll_errors env (st.containers.filter (fun c => c.ns == u.ns)) st []
    [BrokerM.Ev.findInNamespace u.ns]
  have hdt := BrokerM.destroyAll_trace env (st.containers.filter (fun c => c.ns == u.ns)) st []
    [BrokerM.Ev.findInNamespace u.ns]
  refine ⟨?_, ?_, ?_, ?_⟩
  · simp [BrokerM.RemoveUser, hfind, hns, hfe, hur, hdt]
  · intro v hv
    have hv' : v ∈ st.users.filter (fun w => w.name != u.name) := by
      simpa [BrokerM.RemoveUser, hfind, hns, hfe, hur, hdu] using hv
    simpa using List.of_mem_filter hv'
  · intro e hscm
    refine ⟨(st.containers.filter (fun c => c.ns == u.ns)).filterMap
        (fun c => env.destroyErr c.id) ++ [e], ?_, by simp⟩
    have hne : (st.containers.filter (fun c => c.ns == u.ns)).filterMap
        (fun c => env.destroyErr c.id) ++ [e] ≠ [] := by simp
    simp [BrokerM.RemoveUser, hfind, hns, hfe, hur, hscm, hde, BrokerM.errorsAdd,
      BrokerM.errorsErr_ne_nil _ hne]
  · intro hall hscm
    have hfm : (st.containers.filter (fun c => c.ns == u.ns)).filterMap
        (fun c => env.destroyErr c.id) = [] := by
      rw [List.filterMap_eq_nil_iff]
      exact hall
    simp [BrokerM.RemoveUser, hfind, hns, hfe, hur, hscm, hde, hfm, BrokerM.errorsAdd,
      BrokerM.errorsErr]

/-- Witness for C2: user "bob" with three containers, one failing destroy and
a failing SCM namespace removal; every step is attempted, the record is
removed, and the aggregate mentions the SCM failure. -/
theorem BrokerM.removeUser_best_effort_witness :
    BrokerM.findUser ⟨[⟨"bob", "bns"⟩], [⟨"c1", "bns"⟩, ⟨"c2", "bns"⟩, ⟨"c3", "bns"⟩]⟩ "bob" =
      some ⟨"bob", "bns"⟩ ∧
    ("bns" : String) ≠ "" ∧
    (BrokerM.RemoveUser
        ⟨none, none, none, fun i => if i = "c2" then some (.msg "boom") else none,
         some (.msg "scm fail"), none⟩
        ⟨[⟨"bob", "bns"⟩], [⟨"c1", "bns"⟩, ⟨"c2", "bns"⟩, ⟨"c3", "bns"⟩]⟩ "bob").2.1 =
      [.findInNamespace "bns", .destroy "c1", .destroy "c2", .destroy "c3",
       .scmRemoveNs "bns", .hubRemoveNs "bns", .userRemove "bob"] ∧
    (∀ v ∈ (BrokerM.RemoveUser
        ⟨none, none, none, fun i => if i = "c2" then some (.msg "boom") else none,
         some (.msg "scm fail"), none⟩
        ⟨[⟨"bob", "bns"⟩], [⟨"c1", "bns"⟩, ⟨"c2", "bns"⟩, ⟨"c3", "bns"⟩]⟩ "bob").1.users,
      v.name ≠ "bob") ∧
    (∃ es, (BrokerM.RemoveUser
        ⟨none, none, none, fun i => if i = "c2" then some (.msg "boom") else none,
         some (.msg "scm fail"), none⟩
        ⟨[⟨"bob", "bns"⟩], [⟨"c1", "bns"⟩, ⟨"c2", "bns"⟩, ⟨"c3", "bns"⟩]⟩ "bob").2.2 =
      some (.aggregate es) ∧ BrokerM.GoErr.msg "scm fail" ∈ es) := by
  have h := BrokerM.removeUser_best_effort
    ⟨none, none, none, fun i => if i = "c2" then some (.msg "boom") else none,
     some (.msg "scm fail"), none⟩
    ⟨[⟨"bob", "bns"⟩], [⟨"c1", "bns"⟩, ⟨"c2", "bns"⟩, ⟨"c3", "bns"⟩]⟩ "bob" ⟨"bob", "bns"⟩
    rfl (by decide) rfl rfl
  refine ⟨rfl, by decide, ?_, h.2.1, h.2.2.1 _ rfl⟩
  rw [h.1]
  rfl

namespace ExecM

/-- A Go error as seen by `Container.Exec`: either a generic wrapped error or a
`StatusError{Code, Message}` reporting an unsuccessful exit. -/
inductive GoError where
  | other : String → GoError
  | status : Int → String → GoError
  deriving Repr, DecidableEq

/-- Outcomes of the docker-engine calls `Exec` makes, in call order (`none`
means success), plus the exit code reported by `ContainerExecInspect`. -/
structure Env where
  clientErr : Option String
  createErr : Option String
  attachErr : Option String
  pumpErr : Option String
  inspectErr : Option String
  exitCode : Int

/-- `chomp` of the Go source: `strings.TrimRight(b.String(), "\r\n")`, removing
trailing carriage returns and newlines. -/
def chomp (s : String) : String :=
  ⟨(s.data.reverse.dropWhile (fun c => c == '\r' || c == '\n')).reverse⟩

/-- `Container.Exec` of the Go source: client lookup, exec create, attach,
stream pumping and inspect in order, each propagating its error; then a
`StatusError` carrying the exit code (and an empty message) when the remote
process exited non-zero, nil otherwise. -/
def Exec (env : Env) : Option GoError :=
  match env.clientErr with
  | some e => some (.other e)
  | none =>
  match env.createErr with
  | some e => some (.other e)
  | none =>
  match env.attachErr with
  | some e => some (.other e)
  | none =>
  match env.pumpErr with
  | some e => some (.other e)
  | none =>
  match env.inspectErr with
  | some e => some (.other e)
  | none =>
  if env.exitCode ≠ 0 then some (.status env.exitCode "") else none

/-- The error fix-up shared by `ExecE` and `Subst`: a `StatusError` with an
empty message gets the chomped captured stderr text as its message. -/
def fixupStatus (err : Option GoError) (errbuf : String) : Option GoError :=
  match err with
  | some (.status c "") => some (.status c (chomp errbuf))
  | r => r

/-- `Container.ExecE`: run `Exec` capturing stderr into a buffer, then fix up
an empty-message `StatusError` with the captured text. -/
def ExecE (env : Env) (errbuf : String) : Option GoError :=
  fixupStatus (Exec env) errbuf

/-- `Container.Subst`: run `Exec` capturing stdout and stderr, fix up the
error like `ExecE`, and return the chomped stdout contents. -/
def Subst (env : Env) (outbuf errbuf : String) : String × Option GoError :=
  (chomp outbuf, fixupStatus (Exec env) errbuf)

end ExecM

/-- C7: when every engine call succeeds and the remote process exits with a
non-zero code `c`, `Container.Exec` returns `StatusError` with `Code = c` and
an empty message, and `ExecE` (and `Subst`) replace the empty message with the
captured stderr text with trailing carriage returns and newlines removed. -/
theorem ExecM.exec_status_code (env : ExecM.Env) (errbuf outbuf : String)
    (h1 : env.clientErr = none) (h2 : env.createErr = none) (h3 : env.attachErr = none)
    (h4 : env.pumpErr = none) (h5 : env.inspectErr = none) (hc : env.exitCode ≠ 0) :
    ExecM.Exec env = some (.status env.exitCode "") ∧
    ExecM.ExecE env errbuf = some (.status env.exitCode (ExecM.chomp errbuf)) ∧
    ExecM.Subst env outbuf errbuf =
      (ExecM.chomp outbuf, some (.status env.exitCode (ExecM.chomp errbuf))) := by
  have hx : ExecM.Exec env = some (.status env.exitCode "") := by
    simp [ExecM.Exec, h1, h2, h3, h4, h5, hc]
  refine ⟨hx, ?_, ?_⟩ <;> simp [ExecM.ExecE, ExecM.Subst, ExecM.fixupStatus, hx]

/-- Witness for C7: exit code 2 with stderr text "oops\r\n" captured; the
status error carries code 2 and the chomped message "oops". -/
theorem ExecM.exec_status_code_witness :
    ((2 : Int) ≠ 0) ∧
    ExecM.Exec ⟨none, none, none, none, none, 2⟩ = some (.status 2 "") ∧
    ExecM.ExecE ⟨none, none, none, none, none, 2⟩ "oops\r\n" = some (.status 2 "oops") ∧
    ExecM.Subst ⟨none, none, none, none, none, 2⟩ "out\n" "oops\r\n" =
      ("out", some (.status 2 "oops")) := by
  have h := ExecM.exec_status_code ⟨none, none, none, none, none, 2⟩ "oops\r\n" "out\n"
    rfl rfl rfl rfl rfl (by decide)
  refine ⟨by decide, h.1, ?_, ?_⟩
  · rw [h.2.1]
    rfl
  · rw [h.2.2]
    rfl

namespace CgroupM

/-- State of the host files the cgroup manager mutates: the lines of
`/etc/cgrules.conf`, the lines of `/etc/cgconfig.conf`, and the per-subsystem
cgroup directories currently present (tracked by path; contents of the
directories are outside the model). -/
structure FsState where
  rules : List String
  config : List String
  dirs : List String
  deriving Repr, DecidableEq

/-- The delete direction of `update_cgrules` (`recreate = false`):
copy-filter-rewrite keeps exactly the lines not starting with the uuid and
re-adds nothing. -/
def update_cgrules_delete (uuid : String) (rules : List String) : List String :=
  rules.filter (fun line => !(line.startsWith uuid))

/-- The `"group " + CG_ROOT + "/" + uuid + " "` line prefix of
`update_cgconfig`. -/
def configPrefix (cgRoot uuid : String) : String :=
  "group " ++ cgRoot ++ "/" ++ uuid ++ " "

/-- The delete direction of `update_cgconfig` (`newcfg = null`): keeps exactly
the lines not starting with the uuid's group prefix and appends nothing. -/
def update_cgconfig_delete (cgRoot uuid : String) (cfg : List String) : List String :=
  cfg.filter (fun line => !(line.startsWith (configPrefix cgRoot uuid)))

/-- `cgdelete`: `Files.deleteIfExists` on each per-subsystem directory of the
uuid — each listed path is removed if present, and a missing path is not an
error. -/
def cgdelete (cgpaths : List String) (dirs : List String) : List String :=
  dirs.filter (fun d => !(cgpaths.contains d))

/-- `Cgroup.delete()`: strip the uuid's config block, strip the uuid's rules
lines, then remove the per-subsystem directories; none of the three steps
fails on already-missing entries, so the error component is `none`. -/
def delete (cgRoot uuid : String) (cgpaths : List String) (st : FsState) :
    FsState × Option String :=
  (⟨update_cgrules_delete uuid st.rules,
    update_cgconfig_delete cgRoot uuid st.config,
    cgdelete cgpaths st.dirs⟩, none)

end CgroupM

/-- C8: `Cgroup.delete` is idempotent — a second `delete` for the same uuid
produces no error and changes nothing, and after it no per-subsystem directory
of the uuid remains and no line for the uuid remains in the rules or config
files. -/
theorem CgroupM.delete_idempotent (cgRoot uuid : String) (cgpaths : List String)
    (st : CgroupM.FsState) :
    (CgroupM.delete cgRoot uuid cgpaths (CgroupM.delete cgRoot uuid cgpaths st).1).2 = none ∧
    (CgroupM.delete cgRoot uuid cgpaths (CgroupM.delete cgRoot uuid cgpaths st).1).1 =
      (CgroupM.delete cgRoot uuid cgpaths st).1 ∧
    (∀ p ∈ cgpaths,
      p ∉ (CgroupM.delete cgRoot uuid cgpaths (CgroupM.delete cgRoot uuid cgpaths st).1).1.dirs) ∧
    (∀ line ∈ (CgroupM.delete cgRoot uuid cgpaths
        (CgroupM.delete cgRoot uuid cgpaths st).1).1.rules,
      ¬ line.startsWith uuid) ∧
    (∀ line ∈ (CgroupM.delete cgRoot uuid cgpaths
        (CgroupM.delete cgRoot uuid cgpaths st).1).1.config,
      ¬ line.startsWith (CgroupM.configPrefix cgRoot uuid)) := by
  refine ⟨rfl, ?_, ?_, ?_, ?_⟩
  · simp [CgroupM.delete, CgroupM.update_cgrules_delete, CgroupM.update_cgconfig_delete,
      CgroupM.cgdelete, List.filter_filter]
  · intro p hp hmem
    have hmem' := List.of_mem_filter hmem
    simp at hmem'
    exact hmem' hp
  · intro line hline
    have hline' := List.of_mem_filter hline
    simpa using hline'
  · intro line hline
    have hline' := List.of_mem_filter hline
    simpa using hline'

namespace IpM

/-- The signed value Java prints for the first octet: `ip >> 24` is an
arithmetic shift on a 32-bit signed int, so a top byte of 128 or more prints
as a negative number. -/
def byteSigned (a : Nat) : Int :=
  if a < 128 then (a : Int) else (a : Int) - 256

/-- First octet of a 32-bit pattern as Java's `ip >> 24` produces it. -/
def octet1 (bits : Nat) : Int := byteSigned (bits / 2 ^ 24)

/-- The dotted-quad rendering
`(ip >> 24) + "." + ((ip >> 16) & 0xFF) + "." + ((ip >> 8) & 0xFF) + "." + (ip & 0xFF)`
over the 32-bit pattern `bits`. -/
def renderIp (bits : Nat) : String :=
  toString (octet1 bits) ++ "." ++ toString (bits / 2 ^ 16 % 256) ++ "." ++
    toString (bits / 2 ^ 8 % 256) ++ "." ++ toString (bits % 256)

/-- `ContainerPlugin.getIpAddress(host_id)` of the Java source, with the two
configuration values (`UID_WRAPAROUND`, default 65536, and `IP_OFFSET`,
default 1) and the container uid as parameters.  Java semantics are kept
explicitly: `uid % uid_wraparound` is the truncated remainder `Int.tmod` and
throws on a zero wraparound; the `<< 7` long result is cast to a 32-bit int
(`% 2^32` on the bit pattern) and the int additions wrap the same way;
exceptions become `Except.error`. -/
def getIpAddress (uid_wraparound ip_offset uid host_id : Int) : Except String String :=
  if uid < 0 || uid > 2147483647 then
    .error "User uid must be unsigned 32 bit integers."
  else if host_id < 1 || host_id > 127 then
    .error "Supplied host identifier must be between 1 and 127"
  else
    let off1 : Int := if ip_offset ≥ 1000 then 0 else ip_offset
    let off : Int := if uid < uid_wraparound then 0 else off1
    if uid_wraparound = 0 then
      .error "ArithmeticException: / by zero"
    else
      let shifted : Int := ((uid.tmod uid_wraparound + off) * 128) % (2 ^ 32)
      let bits : Nat := ((2130706432 + shifted + host_id) % (2 ^ 32)).toNat
      .ok (renderIp bits)

/-- The address formula exactly as the claim words it: the offset is forced to
0 once the uid EXCEEDS the wraparound or once the offset is at least 1000;
everything else matches `getIpAddress`. -/
def claimedIpFormulaC6 (uid_wraparound ip_offset uid host_id : Int) : Except String String :=
  if uid < 0 || uid > 2147483647 then
    .error "User uid must be unsigned 32 bit integers."
  else if host_id < 1 || host_id > 127 then
    .error "Supplied host identifier must be between 1 and 127"
  else
    let off : Int := if ip_offset ≥ 1000 || uid > uid_wraparound then 0 else ip_offset
    if uid_wraparound = 0 then
      .error "ArithmeticException: / by zero"
    else
      let shifted : Int := ((uid.tmod uid_wraparound + off) * 128) % (2 ^ 32)
      let bits : Nat := ((2130706432 + shifted + host_id) % (2 ^ 32)).toNat
      .ok (renderIp bits)

/-- The claim's formula amended to the source's actual condition: the offset
is forced to 0 once the uid is BELOW the wraparound or once the offset is at
least 1000. -/
def amendedIpFormulaC6 (uid_wraparound ip_offset uid host_id : Int) : Except String String :=
  if uid < 0 || uid > 2147483647 then
    .error "User uid must be unsigned 32 bit integers."
  else if host_id < 1 || host_id > 127 then
    .error "Supplied host identifier must be between 1 and 127"
  else
    let off : Int := if ip_offset ≥ 1000 || uid < uid_wraparound then 0 else ip_offset
    if uid_wraparound = 0 then
      .error "ArithmeticException: / by zero"
    else
      let shifted : Int := ((uid.tmod uid_wraparound + off) * 128) % (2 ^ 32)
      let bits : Nat := ((2130706432 + shifted + host_id) % (2 ^ 32)).toNat
      .ok (renderIp bits)

end IpM

namespace IpM

/-- Value of a decimal digit character, `none` for non-digits. -/
def digitVal (c : Char) : Option Nat :=
  if '0' ≤ c ∧ c ≤ '9' then some (c.toNat - 48) else none

/-- Decimal parse of a character list (left inverse of a numeral rendering). -/
def parseNatChars (l : List Char) : Option Nat :=
  l.foldl (fun acc c => acc.bind (fun n => (digitVal c).map (fun d => n * 10 + d))) (some 0)

/-- Signed decimal parse of a character list. -/
def parseIntChars : List Char → Option Int
  | '-' :: rest => (parseNatChars rest).map (fun n => -(n : Int))
  | l => (parseNatChars l).map (fun n => (n : Int))

set_option maxRecDepth 4096 in
theorem natDec_no_dot : ∀ a : Fin 256, '.' ∉ (toString a.val).data := by decide

set_option maxRecDepth 4096 in
theorem intDec_no_dot : ∀ a : Fin 256, '.' ∉ (toString (byteSigned a.val)).data := by decide

set_option maxRecDepth 4096 in
theorem natDec_parse : ∀ a : Fin 256, parseNatChars (toString a.val).data = some a.val := by
  decide

set_option maxRecDepth 4096 in
theorem intDec_parse :
    ∀ a : Fin 256, parseIntChars (toString (byteSigned a.val)).data = some (byteSigned a.val) := by
  decide

/-- Splitting at a separator that occurs in neither left part is unambiguous. -/
theorem append_dot_cancel (a : List Char) :
    ∀ b x y : List Char, '.' ∉ a → '.' ∉ b →
      a ++ '.' :: x = b ++ '.' :: y → a = b ∧ x = y := by
  induction a with
  | nil =>
      intro b x y _ hb h
      cases b with
      | nil => simpa using h
      | cons c bs =>
          simp only [List.nil_append, List.cons_append, List.cons.injEq] at h
          rw [← h.1] at hb
          exact absurd (List.mem_cons_self _ _) hb
  | cons c as ih =>
      intro b x y ha hb h
      cases b with
      | nil =>
          simp only [List.cons_append, List.nil_append, List.cons.injEq] at h
          rw [h.1] at ha
          exact absurd (List.mem_cons_self _ _) ha
      | cons c' bs =>
          simp only [List.cons_append, List.cons.injEq] at h
          have ha' : '.' ∉ as := fun hmem => ha (List.mem_cons_of_mem _ hmem)
          have hb' : '.' ∉ bs := fun hmem => hb (List.mem_cons_of_mem _ hmem)
          obtain ⟨heq, hx⟩ := ih bs x y ha' hb' h.2
          exact ⟨by rw [h.1, heq], hx⟩

theorem data_renderIp (bits : Nat) :
    (renderIp bits).data =
      (toString (octet1 bits)).data ++ '.' ::
        ((toString (bits / 2 ^ 16 % 256)).data ++ '.' ::
          ((toString (bits / 2 ^ 8 % 256)).data ++ '.' :: (toString (bits % 256)).data)) := by
  have hdot : (".").data = ['.'] := rfl
  simp [renderIp, String.data_append, hdot, List.append_assoc]

theorem byteSigned_inj (a1 a2 : Nat) (h1 : a1 < 256) (h2 : a2 < 256)
    (h : byteSigned a1 = byteSigned a2) : a1 = a2 := by
  unfold byteSigned at h
  split_ifs at h <;> omega

theorem natDec_inj (x1 x2 : Nat) (h1 : x1 < 256) (h2 : x2 < 256)
    (h : (toString x1).data = (toString x2).data) : x1 = x2 := by
  have p1 := natDec_parse ⟨x1, h1⟩
  have p2 := natDec_parse ⟨x2, h2⟩
  simp only at p1 p2
  rw [h] at p1
  rw [p1] at p2
  exact Option.some.inj p2

/-- The dotted-quad rendering is injective on 32-bit patterns. -/
theorem renderIp_inj (b1 b2 : Nat) (hb1 : b1 < 2 ^ 32) (hb2 : b2 < 2 ^ 32)
    (h : renderIp b1 = renderIp b2) : b1 = b2 := by
  have hd := congrArg String.data h
  rw [data_renderIp, data_renderIp] at hd
  have ha1 : b1 / 2 ^ 24 < 256 := by omega
  have ha2 : b2 / 2 ^ 24 < 256 := by omega
  have hx1 : b1 / 2 ^ 16 % 256 < 256 := Nat.mod_lt _ (by norm_num)
  have hx2 : b2 / 2 ^ 16 % 256 < 256 := Nat.mod_lt _ (by norm_num)
  have hy1 : b1 / 2 ^ 8 % 256 < 256 := Nat.mod_lt _ (by norm_num)
  have hy2 : b2 / 2 ^ 8 % 256 < 256 := Nat.mod_lt _ (by norm_num)
  have hz1 : b1 % 256 < 256 := Nat.mod_lt _ (by norm_num)
  have hz2 : b2 % 256 < 256 := Nat.mod_lt _ (by norm_num)
  have step1 := append_dot_cancel _ _ _ _
    (intDec_no_dot ⟨b1 / 2 ^ 24, ha1⟩) (intDec_no_dot ⟨b2 / 2 ^ 24, ha2⟩) hd
  have step2 := append_dot_cancel _ _ _ _
    (natDec_no_dot ⟨b1 / 2 ^ 16 % 256, hx1⟩) (natDec_no_dot ⟨b2 / 2 ^ 16 % 256, hx2⟩) step1.2
  have step3 := append_dot_cancel _ _ _ _
    (natDec_no_dot ⟨b1 / 2 ^ 8 % 256, hy1⟩) (natDec_no_dot ⟨b2 / 2 ^ 8 % 256, hy2⟩) step2.2
  have hoct : b1 / 2 ^ 24 = b2 / 2 ^ 24 := by
    have p1 := intDec_parse ⟨b1 / 2 ^ 24, ha1⟩
    have p2 := intDec_parse ⟨b2 / 2 ^ 24, ha2⟩
    simp only at p1 p2
    rw [step1.1] at p1
    rw [p1] at p2
    exact byteSigned_inj _ _ ha1 ha2 (Option.some.inj p2)
  have hxeq := natDec_inj _ _ hx1 hx2 step2.1
  have hyeq := natDec_inj _ _ hy1 hy2 step3.1
  have hzeq := natDec_inj _ _ hz1 hz2 step3.2
  omega

/-- Below the wraparound the offset is forced to 0 and the address reduces to
`loopback + uid*128 + host`, taken modulo `2^32`. -/
theorem getIpAddress_below_wrap (wrap off u h : Int)
    (hw0 : 0 < wrap) (hw : wrap ≤ 2 ^ 25) (hu : 0 ≤ u) (huw : u < wrap)
    (hh1 : 1 ≤ h) (hh2 : h ≤ 127) :
    getIpAddress wrap off u h =
      .ok (renderIp ((2130706432 + u.toNat * 128 + h.toNat) % 2 ^ 32)) := by
  unfold getIpAddress
  have hu' : ¬ (u < 0 || u > 2147483647) = true := by simp; omega
  have hh' : ¬ (h < 1 || h > 127) = true := by simp; omega
  have hwz : ¬ wrap = 0 := by omega
  simp only [hu', hh', hwz, if_false, if_neg, Bool.not_eq_true]
  rw [if_pos huw, Int.tmod_eq_of_lt hu huw, add_zero]
  have hvm : (u * 128) % ((2 : Int) ^ 32) = u * 128 :=
    Int.emod_eq_of_lt (by positivity) (by omega)
  rw [hvm]
  have h32i : ((2 : Int) ^ 32) = 4294967296 := by norm_num
  rw [h32i]
  have hbits : (((2130706432 + u * 128 + h) % 4294967296).toNat) =
      (2130706432 + u.toNat * 128 + h.toNat) % 2 ^ 32 := by
    omega
  rw [hbits]

end IpM

/-- C6 counterexample: at the default configuration (wraparound 65536,
offset 1) and uid 100, hostId 1 — uid does not exceed the wraparound, so the
claim's condition leaves the offset at 1 — the source computes 127.0.50.1
while the claim's formula yields 127.0.50.129. -/
theorem IpM.getIpAddress_formula_counterexample :
    IpM.getIpAddress 65536 1 100 1 = .ok "127.0.50.1" ∧
    IpM.claimedIpFormulaC6 65536 1 100 1 = .ok "127.0.50.129" ∧
    IpM.getIpAddress 65536 1 100 1 ≠ IpM.claimedIpFormulaC6 65536 1 100 1 := by
  have h1 : IpM.getIpAddress 65536 1 100 1 = .ok "127.0.50.1" := rfl
  have h2 : IpM.claimedIpFormulaC6 65536 1 100 1 = .ok "127.0.50.129" := rfl
  refine ⟨h1, h2, ?_⟩
  rw [h1, h2]
  intro h
  exact absurd (Except.ok.inj h) (by decide)

/-- C6 (amended): `getIpAddress` computes the loopback base plus
`((uid mod wraparound) + offset) << 7` plus hostId rendered in dotted-quad
notation, where the offset is forced to 0 once the uid is BELOW the wraparound
(not once it exceeds it) or once the offset is at least 1000. -/
theorem IpM.getIpAddress_formula_amended (uid_wraparound ip_offset uid host_id : Int) :
    IpM.getIpAddress uid_wraparound ip_offset uid host_id =
      IpM.amendedIpFormulaC6 uid_wraparound ip_offset uid host_id := by
  unfold IpM.getIpAddress IpM.amendedIpFormulaC6
  by_cases h1 : ip_offset ≥ 1000 <;> by_cases h2 : uid < uid_wraparound <;> simp [h1, h2]

/-- C5 counterexample: with wraparound configured to `2^26` the distinct pairs
(uid `2^25`, hostId 1) and (uid 0, hostId 1) — both uids below the wraparound —
map to the same address 127.0.0.1, because the 7-bit shift wraps modulo
`2^32`. -/
theorem IpM.getIpAddress_injectivity_counterexample :
    (0 : Int) ≤ 33554432 ∧ (33554432 : Int) < 67108864 ∧
    (0 : Int) ≤ 0 ∧ (0 : Int) < 67108864 ∧
    ((33554432 : Int), (1 : Int)) ≠ ((0 : Int), (1 : Int)) ∧
    IpM.getIpAddress 67108864 1 33554432 1 = .ok "127.0.0.1" ∧
    IpM.getIpAddress 67108864 1 0 1 = .ok "127.0.0.1" ∧
    IpM.getIpAddress 67108864 1 33554432 1 = IpM.getIpAddress 67108864 1 0 1 := by
  refine ⟨by norm_num, by norm_num, le_refl 0, by norm_num, by decide, rfl, rfl, rfl⟩

/-- C5 (amended): `getIpAddress` is a pure deterministic function of
(uid, hostId) and the configuration, and — provided the configured wraparound
is at most `2^25`, which the default 65536 satisfies — distinct (uid, hostId)
pairs with uid below the wraparound map to distinct dotted-quad strings. -/
theorem IpM.getIpAddress_deterministic_injective (wrap off u1 h1 u2 h2 : Int)
    (hw0 : 0 < wrap) (hw : wrap ≤ 2 ^ 25)
    (hu1 : 0 ≤ u1) (hu1w : u1 < wrap) (hu2 : 0 ≤ u2) (hu2w : u2 < wrap)
    (hh1 : 1 ≤ h1) (hh1' : h1 ≤ 127) (hh2 : 1 ≤ h2) (hh2' : h2 ≤ 127)
    (hne : (u1, h1) ≠ (u2, h2)) :
    IpM.getIpAddress wrap off u1 h1 = IpM.getIpAddress wrap off u1 h1 ∧
    IpM.getIpAddress wrap off u1 h1 ≠ IpM.getIpAddress wrap off u2 h2 := by
  refine ⟨rfl, ?_⟩
  rw [IpM.getIpAddress_below_wrap wrap off u1 h1 hw0 hw hu1 hu1w hh1 hh1',
      IpM.getIpAddress_below_wrap wrap off u2 h2 hw0 hw hu2 hu2w hh2 hh2']
  intro hcontra
  have hrip := Except.ok.inj hcontra
  have hb1 : (2130706432 + u1.toNat * 128 + h1.toNat) % 2 ^ 32 < 2 ^ 32 :=
    Nat.mod_lt _ (by norm_num)
  have hb2 : (2130706432 + u2.toNat * 128 + h2.toNat) % 2 ^ 32 < 2 ^ 32 :=
    Nat.mod_lt _ (by norm_num)
  have hbits := IpM.renderIp_inj _ _ hb1 hb2 hrip
  have huv1 : u1.toNat < 2 ^ 25 := by omega
  have huv2 : u2.toNat < 2 ^ 25 := by omega
  have heq : u1 = u2 ∧ h1 = h2 := by constructor <;> omega
  exact hne (by rw [heq.1, heq.2])

/-- Witness for the amended C5 at the default wraparound 65536 and offset 1:
uids 0 and 5 with hostIds 1 and 7. -/
theorem IpM.getIpAddress_deterministic_injective_witness :
    (0 : Int) < 65536 ∧ (65536 : Int) ≤ 2 ^ 25 ∧
    (0 : Int) ≤ 0 ∧ (0 : Int) < 65536 ∧ (0 : Int) ≤ 5 ∧ (5 : Int) < 65536 ∧
    (1 : Int) ≤ 1 ∧ (1 : Int) ≤ 127 ∧ (1 : Int) ≤ 7 ∧ (7 : Int) ≤ 127 ∧
    ((0 : Int), (1 : Int)) ≠ ((5 : Int), (7 : Int)) ∧
    (IpM.getIpAddress 65536 1 0 1 = IpM.getIpAddress 65536 1 0 1 ∧
     IpM.getIpAddress 65536 1 0 1 ≠ IpM.getIpAddress 65536 1 5 7) := by
  refine ⟨by norm_num, by norm_num, le_refl 0, by norm_num, by norm_num, by norm_num,
    le_refl 1, by norm_num, by norm_num, by norm_num, by decide, ?_⟩
  exact IpM.getIpAddress_deterministic_injective 65536 1 0 1 5 7
    (by norm_num) (by norm_num) (le_refl 0) (by norm_num) (by norm_num) (by norm_num)
    (le_refl 1) (by norm_num) (by norm_num) (by norm_num) (by decide)

/-- C10: at the default configuration, `getIpAddress` rejects every hostId
outside [1,127] and every uid outside [0, 2^31-1] with an exception before any
address is computed, and under that precondition it always returns a
dotted-quad string. -/
theorem IpM.getIpAddress_domain_guard (uid host_id : Int) :
    ((uid < 0 ∨ uid > 2147483647 ∨ host_id < 1 ∨ host_id > 127) →
      ∃ msg, IpM.getIpAddress 65536 1 uid host_id = .error msg) ∧
    (0 ≤ uid → uid ≤ 2147483647 → 1 ≤ host_id → host_id ≤ 127 →
      ∃ s, IpM.getIpAddress 65536 1 uid host_id = .ok s) := by
  constructor
  · intro h
    unfold IpM.getIpAddress
    by_cases hu : (uid < 0 || uid > 2147483647) = true
    · simp [hu]
    · have hh : (host_id < 1 || host_id > 127) = true := by
        simp at hu ⊢
        omega
      simp [hu, hh]
  · intro h1 h2 h3 h4
    unfold IpM.getIpAddress
    have hu : ¬ (uid < 0 || uid > 2147483647) = true := by simp; omega
    have hh : ¬ (host_id < 1 || host_id > 127) = true := by simp; omega
    simp [hu, hh]

/-- Witness for C10: hostId 200 is rejected, (uid 5, hostId 3) yields an
address. -/
theorem IpM.getIpAddress_domain_guard_witness :
    ((5 : Int) < 0 ∨ (5 : Int) > 2147483647 ∨ (200 : Int) < 1 ∨ (200 : Int) > 127) ∧
    (∃ msg, IpM.getIpAddress 65536 1 5 200 = .error msg) ∧
    (∃ s, IpM.getIpAddress 65536 1 5 3 = .ok s) := by
  refine ⟨by norm_num, ?_, ?_⟩
  · exact (IpM.getIpAddress_domain_guard 5 200).1 (by norm_num)
  · exact (IpM.getIpAddress_domain_guard 5 3).2 (le_refl 0 |>.trans (by norm_num))
      (by norm_num) (by norm_num) (by norm_num)
